import Mathlib

/-!
Shallow embedding of src/app.py (immatch-normalizer).

The model is a JSON-like dynamic value type together with Python-style
dynamic semantics for the operations the program uses (attribute access on
dicts, truthiness, iteration, string conversion), followed by direct
translations of the normalization helpers and of the request pipeline.
Fallible Python operations (attribute access on a non-dict, iteration over
a non-iterable, unhashable dict keys) are modelled with Except; the error
string names the Python exception class that the corresponding operation
raises.
-/

/-- JSON-like dynamic value, modelling the Python values that can appear in
a parsed request payload: null, booleans, integers, strings, lists and
dicts. Numeric leaves are modelled as integers (the payloads the program
manipulates carry ids, texts and numeric form answers). Dict keys of `obj`
are strings, as produced by JSON parsing; the Python dicts modelled by
`obj` have pairwise distinct keys. -/
inductive JVal where
  | null
  | bool (b : Bool)
  | num (n : Int)
  | str (s : String)
  | arr (xs : List JVal)
  | obj (kvs : List (String × JVal))

/-- Python truthiness of a value: None, False, 0, the empty string, the
empty list and the empty dict are falsy, everything else is truthy. -/
def truthy : JVal → Bool
  | .null => false
  | .bool b => b
  | .num n => !(n == 0)
  | .str s => !(s == "")
  | .arr xs => !xs.isEmpty
  | .obj kvs => !kvs.isEmpty

mutual

/-- Python equality (the == operator) restricted to the modelled values:
structural on scalars and containers, with the Python identification of
booleans and integers (True == 1, False == 0). Python dict equality is
key-set based; the modelled dicts have distinct keys in fixed order, for
which the positional comparison used here agrees on equal key order. -/
def pyEq : JVal → JVal → Bool
  | .null, .null => true
  | .bool a, .bool b => a == b
  | .num a, .num b => a == b
  | .bool a, .num b => (if a then (1 : Int) else 0) == b
  | .num a, .bool b => a == (if b then (1 : Int) else 0)
  | .str a, .str b => a == b
  | .arr a, .arr b => pyEqL a b
  | .obj a, .obj b => pyEqO a b
  | _, _ => false

/-- Elementwise Python equality of two lists. -/
def pyEqL : List JVal → List JVal → Bool
  | [], [] => true
  | x :: xs, y :: ys => pyEq x y && pyEqL xs ys
  | _, _ => false

/-- Pairwise Python equality of two key-value lists. -/
def pyEqO : List (String × JVal) → List (String × JVal) → Bool
  | [], [] => true
  | (k, v) :: r, (k2, v2) :: r2 => k == k2 && pyEq v v2 && pyEqO r r2
  | _, _ => false

end

/-- Python str.strip whitespace test, for the ASCII whitespace characters
Python strips (space, tab, newline, carriage return, vertical tab, form
feed); the Unicode-only whitespace code points are not modelled. -/
def isPyWs (c : Char) : Bool :=
  c.toNat == 32 || c.toNat == 9 || c.toNat == 10 || c.toNat == 13 || c.toNat == 11 || c.toNat == 12

/-- Python str.strip on a character list: drop whitespace from both ends. -/
def pyStripL (l : List Char) : List Char :=
  ((l.dropWhile isPyWs).reverse.dropWhile isPyWs).reverse

/-- Python str.strip on a string. -/
def pyStrip (s : String) : String :=
  ⟨pyStripL s.data⟩

/-- Python str.lower on a character, for ASCII letters (the payload
sentinels and field texts the program compares are ASCII). -/
def lowerChar (c : Char) : Char := c.toLower

/-- Python str.lower on a string. -/
def pyLower (s : String) : String :=
  ⟨s.data.map lowerChar⟩

/-- Single-quote character, used by the Python repr of strings. -/
def quoteStr : String := String.singleton (Char.ofNat 39)

/-- Comma-space separator used by the Python repr of containers. -/
def commaSep (l : List String) : String := String.intercalate ", " l

mutual

/-- Python repr of a value, used by str() on containers. String escaping
inside container reprs is simplified to plain single quotes; the program
only ever reaches this case when a container value is fed to a scalar
normalizer, where the result never parses as a number and never equals a
phone or email form. -/
def pyRepr : JVal → String
  | .null => "None"
  | .bool true => "True"
  | .bool false => "False"
  | .num n => toString n
  | .str s => quoteStr ++ s ++ quoteStr
  | .arr xs => "[" ++ commaSep (pyReprList xs) ++ "]"
  | .obj kvs => "\x7b" ++ commaSep (pyReprObj kvs) ++ "\x7d"

/-- Python reprs of the elements of a list. -/
def pyReprList : List JVal → List String
  | [] => []
  | x :: xs => pyRepr x :: pyReprList xs

/-- Python reprs of the entries of a dict. -/
def pyReprObj : List (String × JVal) → List String
  | [] => []
  | (k, v) :: r => (quoteStr ++ k ++ quoteStr ++ ": " ++ pyRepr v) :: pyReprObj r

end

/-- Python str() of a value: identity on strings, None/True/False and
decimal notation for the scalars, repr for containers. -/
def pyStr : JVal → String
  | .str s => s
  | v => pyRepr v

/-- Python dict.get on a string-keyed dict body, with default None. -/
def pyGetD (kvs : List (String × JVal)) (k : String) : JVal :=
  match kvs with
  | [] => .null
  | (k2, v) :: r => if k2 == k then v else pyGetD r k

/-- Python v.get(k): dict lookup with default None; raises AttributeError
when the receiver is not a dict. -/
def pyGet (v : JVal) (k : String) : Except String JVal :=
  match v with
  | .obj kvs => .ok (pyGetD kvs k)
  | _ => .error "AttributeError"

/-- Python iteration over a value: lists yield their elements, strings
their one-character substrings, dicts their keys; other values raise
TypeError. -/
def pyIterElems : JVal → Except String (List JVal)
  | .arr xs => .ok xs
  | .str s => .ok (s.data.map (fun c => .str (String.singleton c)))
  | .obj kvs => .ok (kvs.map (fun kv => .str kv.1))
  | _ => .error "TypeError"

/-- Lookup in the answers dict, whose keys are arbitrary (hashable) Python
values; comparison is Python equality. -/
def dictGet (kvs : List (JVal × JVal)) (k : JVal) : Option JVal :=
  match kvs with
  | [] => none
  | (k2, v) :: r => if pyEq k2 k then some v else dictGet r k

/-- Python dict assignment d[k] = v: an existing equal key keeps its
position (and its original key object) and gets the new value, a new key
is appended at the end. -/
def dictSet (kvs : List (JVal × JVal)) (k : JVal) (v : JVal) : List (JVal × JVal) :=
  match kvs with
  | [] => [(k, v)]
  | (k2, v2) :: r => if pyEq k2 k then (k2, v) :: r else (k2, v2) :: dictSet r k v

/-! Embedding of the normalizer helpers of src/app.py. -/

/-- Source line 12: the sentinel set EMPTY_STRINGS. -/
def EMPTY_STRINGS : List String := ["", " ", "null", "none", "n/a", "na", "undefined"]

/-- Source lines 14-21: is_empty. None is empty; a string is empty when its
stripped, lowercased form is a sentinel; lists and dicts are empty when
they have length zero; everything else is non-empty. -/
def is_empty : JVal → Bool
  | .null => true
  | .str s => EMPTY_STRINGS.contains (pyLower (pyStrip s))
  | .arr xs => xs.isEmpty
  | .obj kvs => kvs.isEmpty
  | .bool _ => false
  | .num _ => false

/-- Decimal digit character (code points 48-57), the ASCII case of the
regex classes d and D used by norm_phone. -/
def isDigitChar (c : Char) : Bool := 48 ≤ c.toNat && c.toNat ≤ 57

/-- Character class kept by the re.sub in norm_phone (source line 27):
digits and the plus sign. The Python regex class d additionally matches
Unicode digit code points, which are not modelled. -/
def isPhoneChar (c : Char) : Bool := isDigitChar c || c.toNat == 43

/-- Source lines 28-29 of norm_phone: a leading 00 is rewritten to +. -/
def rewrite00 : List Char → List Char
  | c1 :: c2 :: rest =>
    if c1.toNat == 48 && c2.toNat == 48 then '+' :: rest else c1 :: c2 :: rest
  | l => l

/-- The cleaned phone string of norm_phone (source lines 26-29): stringify,
strip, keep only digits and plus signs, rewrite a leading 00 to +. -/
def phoneCleaned (v : JVal) : List Char :=
  rewrite00 ((pyStripL (pyStr v).data).filter isPhoneChar)

/-- Test for a leading zero character (source line 31, s.startswith 0). -/
def headIsZero : List Char → Bool
  | c :: _ => c.toNat == 48
  | _ => false

/-- Source lines 23-33: norm_phone. Empty input gives None; otherwise the
cleaned string is rewritten to +33 plus the digits without their leading
zero when it starts with 0 and carries exactly 10 digits, and is returned
unchanged otherwise (the final conditional of line 33 returns s in both
branches). -/
def norm_phone (v : JVal) : Option String :=
  if is_empty v then none
  else
    let s := phoneCleaned v
    let digits := s.filter isDigitChar
    if headIsZero s && (digits.length == 10)
    then some ⟨'+' :: '3' :: '3' :: digits.drop 1⟩
    else some ⟨s⟩

/-- Source lines 35-39: norm_email. Empty input gives None; otherwise the
stringified, stripped, lowercased value is returned when it contains an @
character and None otherwise. -/
def norm_email (v : JVal) : Option String :=
  if is_empty v then none
  else
    let s := pyLower (pyStrip (pyStr v))
    if s.data.contains '@' then some s else none

/-- Python str.replace of commas by dots (source line 45); both patterns
are single characters, so the substring replacement is a character map. -/
def commaToDot (s : String) : String :=
  ⟨s.data.map (fun c => if c == ',' then '.' else c)⟩

/-- Value of a digit character. -/
def digitVal (c : Char) : Nat := c.toNat - 48

/-- Numeric value of a list of digit characters, most significant first. -/
def natOfDigits (l : List Char) : Nat :=
  l.foldl (fun acc c => 10 * acc + digitVal c) 0

/-- Longest leading run of digits accepted by the Python float parser:
digits, with single underscores allowed between two digits. Returns the
digits of the run and the unconsumed remainder. -/
def digRun : List Char → List Char × List Char
  | [] => ([], [])
  | c :: rest =>
    if isDigitChar c then
      match rest with
      | '_' :: d :: rest3 =>
        if isDigitChar d then
          let p := digRun (d :: rest3)
          (c :: p.1, p.2)
        else ([c], '_' :: d :: rest3)
      | ['_'] => ([c], ['_'])
      | r =>
        let p := digRun r
        (c :: p.1, p.2)
    else ([], c :: rest)

/-- Mantissa of a Python float literal: digits with an optional dot and
optional fractional digits, or a dot followed by digits. Returns the
mantissa value, the number of fractional digits and the remainder. -/
def parseMantissa (l : List Char) : Option (Nat × Nat × List Char) :=
  let p := digRun l
  match p.2 with
  | '.' :: r2 =>
    let q := digRun r2
    if p.1.isEmpty && q.1.isEmpty then none
    else some (natOfDigits (p.1 ++ q.1), q.1.length, q.2)
  | r =>
    if p.1.isEmpty then none else some (natOfDigits p.1, 0, r)

/-- Optional exponent part of a Python float literal. Returns the signed
exponent and the remainder. -/
def parseExp (l : List Char) : Option (Int × List Char) :=
  match l with
  | [] => some (0, [])
  | c :: r =>
    if c == 'e' || c == 'E' then
      match r with
      | [] => none
      | s :: r2 =>
        if s == '+' then
          let q := digRun r2
          if q.1.isEmpty then none else some ((natOfDigits q.1 : Int), q.2)
        else if s == '-' then
          let q := digRun r2
          if q.1.isEmpty then none else some (-(natOfDigits q.1 : Int), q.2)
        else
          let q := digRun r
          if q.1.isEmpty then none else some ((natOfDigits q.1 : Int), q.2)
    else some (0, c :: r)

/-- Round to nearest with ties to even of the ratio n / d, for positive d. -/
def roundHalfEven (n d : Nat) : Nat :=
  let q := n / d
  let r := n % d
  if 2 * r < d then q
  else if d < 2 * r then q + 1
  else if q % 2 = 0 then q else q + 1

/-- Fuel-driven binary logarithm: the floor of log2 n, for 1 <= n and
enough fuel. -/
def log2Aux : Nat → Nat → Nat
  | 0, _ => 0
  | fuel + 1, n => if 2 ≤ n then log2Aux fuel (n / 2) + 1 else 0

/-- Floor of the binary logarithm of a positive natural number. -/
def natLog2 (n : Nat) : Nat := log2Aux n n

/-- Floor of the binary logarithm of the positive rational n / d. -/
def ratLog2 (n d : Nat) : Int :=
  let e0 : Int := (natLog2 n : Int) - (natLog2 d : Int)
  let ge : Bool :=
    if 0 ≤ e0 then decide (d * 2 ^ e0.toNat ≤ n)
    else decide (d ≤ n * 2 ^ (-e0).toNat)
  if ge then e0 else e0 - 1

/-- Truncation toward zero of the IEEE-754 binary64 value nearest to the
positive rational n / d, as the CPython float conversion rounds it: the
significand grid has 53 bits (spacing 2 ^ (e - 52) in the binade of
exponent e, clamped below to the subnormal spacing 2 ^ (-1074)), ties go
to the even significand, and a rounded magnitude reaching 2 ^ 1024
overflows to infinity, on which the surrounding int() raises (None
here). -/
def floatTruncOfRat (n d : Nat) : Option Nat :=
  let e : Int := ratLog2 n d
  let s : Int := max (e - 52) (-1074)
  if 0 ≤ s then
    let k := roundHalfEven n (d * 2 ^ s.toNat)
    let v := k * 2 ^ s.toNat
    if 2 ^ 1024 ≤ v then none else some v
  else
    let k := roundHalfEven (n * 2 ^ (-s).toNat) d
    some (k / 2 ^ (-s).toNat)

/-- Python float value of a parsed decimal literal, truncated toward
zero: the literal denotes m * 10 ^ (e - fracLen); zero gives zero, any
other magnitude is correctly rounded to binary64 first. -/
def floatTruncOfDec (m fracLen : Nat) (e : Int) : Option Nat :=
  if m = 0 then some 0
  else
    let e2 : Int := e - fracLen
    if 0 ≤ e2 then floatTruncOfRat (m * 10 ^ e2.toNat) 1
    else floatTruncOfRat m (10 ^ (-e2).toNat)

/-- Python int(float(s)): strip whitespace, optional sign, decimal
mantissa with optional exponent, correct rounding to an IEEE-754 binary64
value, truncation toward zero; None on any parse failure and on overflow
to infinity, where int() raises and the caller catches (the inf, infinity
and nan word forms accepted by float() likewise make int() raise, so they
are folded into parse failure here). -/
def parsePyFloatTrunc (s : String) : Option Int :=
  let l0 := pyStripL s.data
  let sgn : Bool × List Char :=
    match l0 with
    | '+' :: r => (false, r)
    | '-' :: r => (true, r)
    | r => (false, r)
  match parseMantissa sgn.2 with
  | none => none
  | some (m, fl, r1) =>
    match parseExp r1 with
    | none => none
    | some (e, r2) =>
      if r2.isEmpty then
        match floatTruncOfDec m fl e with
        | none => none
        | some mag => some (if sgn.1 then -(mag : Int) else (mag : Int))
      else none

/-- Source lines 41-47: as_int. Empty input gives None; otherwise the
value is stringified, commas become dots, and the result is parsed as a
float and truncated to an integer, any failure giving None. -/
def as_int (v : JVal) : Option Int :=
  if is_empty v then none
  else parsePyFloatTrunc (commaToDot (pyStr v))

/-- Loop body of option_id_to_text (source lines 50-53): scan the options,
return the text of the first option whose id equals the wanted id, or None
when none matches; a non-dict option raises AttributeError. -/
def findOptText (opts : List JVal) (oid : JVal) : Except String JVal :=
  match opts with
  | [] => .ok .null
  | opt :: rest =>
    match opt with
    | .obj kvs =>
      if pyEq (pyGetD kvs "id") oid then .ok (pyGetD kvs "text")
      else findOptText rest oid
    | _ => .error "AttributeError"

/-- Source lines 49-53: option_id_to_text. The options member of the field
(empty list when absent or falsy) is scanned for an option with the given
id; the result conflates a missing match with a matching option whose text
member is None, exactly as the Python return value does. -/
def option_id_to_text (field : JVal) (oid : JVal) : Except String JVal := do
  let optsRaw ← pyGet field "options"
  let opts ← pyIterElems (if truthy optsRaw then optsRaw else .arr [])
  findOptText opts oid

/-- The Python conditional expression t if t is not None else x used by
decode_field_value (source lines 66 and 70). -/
def fallbackOr (t x : JVal) : JVal :=
  match t with
  | .null => x
  | t2 => t2

/-- Loop of the list branch of decode_field_value (source lines 63-67):
each option id is replaced by its resolved text, the raw id standing in
when the resolution returns None. -/
def decodeChoiceList (field : JVal) (oids : List JVal) : Except String (List JVal) :=
  match oids with
  | [] => .ok []
  | oid :: rest => do
    let t ← option_id_to_text field oid
    let texts ← decodeChoiceList field rest
    .ok (fallbackOr t oid :: texts)

/-- Source lines 55-72: decode_field_value. For MULTIPLE_CHOICE fields a
None value stays None, a list value has each id resolved with fallback to
the raw id, a string value gets the same single-value resolution; every
other value, and every other field type, is returned unchanged. -/
def decode_field_value (field : JVal) : Except String JVal := do
  let v ← pyGet field "value"
  let ftype ← pyGet field "type"
  if pyEq ftype (.str "MULTIPLE_CHOICE") then
    match v with
    | .null => .ok .null
    | .arr oids => do
      let texts ← decodeChoiceList field oids
      .ok (.arr texts)
    | .str sv => do
      let t ← option_id_to_text field (.str sv)
      .ok (fallbackOr t (.str sv))
    | _ => .ok v
  else .ok v

/-- Loop of build_answers (source lines 89-97): walk the field list, skip
fields with a falsy key, store label, type and decoded value under the
key; an unhashable key (a list or dict) raises TypeError in Python. -/
def addFields (fs : List JVal) (acc : List (JVal × JVal)) :
    Except String (List (JVal × JVal)) :=
  match fs with
  | [] => .ok acc
  | f :: rest => do
    let key ← pyGet f "key"
    if truthy key then
      match key with
      | .arr _ => .error "TypeError"
      | .obj _ => .error "TypeError"
      | _ => do
        let label ← pyGet f "label"
        let ftype ← pyGet f "type"
        let v ← decode_field_value f
        addFields rest (dictSet acc key (.obj [("label", label), ("type", ftype), ("value", v)]))
    else addFields rest acc

/-- Source lines 74-99: build_answers. The data member (empty dict when
absent or falsy) provides the fields list (empty when absent or falsy) and
the six metadata entries of the reserved _meta entry; the field loop then
fills the answers dict. -/
def build_answers (bundle : JVal) : Except String (List (JVal × JVal)) := do
  let dataRaw ← pyGet bundle "data"
  let data := if truthy dataRaw then dataRaw else .obj []
  let fieldsRaw ← pyGet data "fields"
  let fields := if truthy fieldsRaw then fieldsRaw else .arr []
  let rId ← pyGet data "responseId"
  let sId ← pyGet data "submissionId"
  let respId ← pyGet data "respondentId"
  let fId ← pyGet data "formId"
  let fName ← pyGet data "formName"
  let cAt ← pyGet data "createdAt"
  let meta : JVal := .obj [("responseId", rId), ("submissionId", sId),
    ("respondentId", respId), ("formId", fId), ("formName", fName), ("createdAt", cAt)]
  let fs ← pyIterElems fields
  addFields fs (dictSet [] (.str "_meta") meta)

/-- Source lines 101-105: get_value. A missing key or a non-dict node
gives None, otherwise the value member of the node. -/
def get_value (answers : List (JVal × JVal)) (key : String) : JVal :=
  match dictGet answers (.str key) with
  | some (.obj kvs) => pyGetD kvs "value"
  | _ => .null

/-- Free-text normalization used inline by build_canonical (source lines
125-128): None when empty, else the stringified, stripped value. -/
def textNorm (v : JVal) : JVal :=
  if is_empty v then .null else .str (pyStrip (pyStr v))

/-- Optional string as a value (Python Optional[str] results). -/
def jstr : Option String → JVal
  | none => .null
  | some s => .str s

/-- Optional integer as a value (Python Optional[int] results). -/
def jint : Option Int → JVal
  | none => .null
  | some n => .num n

/-- Source lines 107-137: build_canonical. Fixed field keys are looked up
in the answers and each canonical attribute receives its inline
normalization; property_type is stored raw. -/
def build_canonical (answers : List (JVal × JVal)) : List (String × JVal) :=
  let role := get_value answers "question_OzXkVA_7be398b7-7e42-4736-b35e-b9a78d556f22"
  let city_project := get_value answers "question_V0PDxl"
  let first_name := get_value answers "question_EXlMAL"
  let last_name := get_value answers "question_r6OvgL"
  let phone := get_value answers "question_487zEo"
  let email := get_value answers "question_jyovg9"
  let price_net_seller := as_int (get_value answers "question_EXlMaL")
  let budget_max := as_int (get_value answers "question_P69kP0")
  let property_type := get_value answers "question_WNEKXe"
  let surface := as_int (get_value answers "question_9WZMr4")
  let land_surface := as_int (get_value answers "question_e6rvoo")
  let rooms := as_int (get_value answers "question_WNR1ZQ")
  [("role", textNorm role),
   ("city_project", textNorm city_project),
   ("first_name", textNorm first_name),
   ("last_name", textNorm last_name),
   ("phone", jstr (norm_phone phone)),
   ("email", jstr (norm_email email)),
   ("price_net_seller", jint price_net_seller),
   ("budget_max", jint budget_max),
   ("property_type", property_type),
   ("surface_m2", jint surface),
   ("land_surface_m2", jint land_surface),
   ("bedrooms", jint rooms)]

/-- Source lines 139-141: drop_empty keeps exactly the entries whose value
is not empty, in order. -/
def drop_empty (d : List (String × JVal)) : List (String × JVal) :=
  d.filter (fun kv => !is_empty kv.2)

/-- Source lines 151-162: the body of the normalize endpoint (named normalize in the source; the Lean name avoids the Mathlib declaration of the same name). The payload raw
value flows through build_answers and build_canonical, empties are
dropped, and the response carries the canonical dict and the _meta entry
(empty dict default). -/
def normalize_endpoint (raw : JVal) : Except String JVal := do
  let answers ← build_answers raw
  let canonical := build_canonical answers
  .ok (.obj [("canonical", .obj (drop_empty canonical)),
             ("meta", (dictGet answers (.str "_meta")).getD (.obj []))])

/-! Specification-side definitions used to state the claims: shape
predicates for payloads the field loop can traverse, the claim wording of
multiple-choice resolution, and the metadata object, plus the concrete
inputs used by witnesses and counterexamples. -/

/-- Values usable as Python dict keys (hashable): everything except lists
and dicts. -/
def hashableKey : JVal → Bool
  | .arr _ => false
  | .obj _ => false
  | _ => true

/-- Shape of an options member that the option scan can traverse without
raising: absent or falsy, or a list of dicts. -/
def wfOptionsVal (opts : JVal) : Bool :=
  if truthy opts then
    match opts with
    | .arr os => os.all (fun o => match o with | .obj _ => true | _ => false)
    | _ => false
  else true

/-- Shape of a field that the build_answers loop can process without
raising: a dict whose key member is hashable and whose options member is
traversable. -/
def wfField (f : JVal) : Bool :=
  match f with
  | .obj kvs => hashableKey (pyGetD kvs "key") && wfOptionsVal (pyGetD kvs "options")
  | _ => false

/-- The effective data object of a bundle: its data member, an empty dict
standing in when that member is absent or falsy (source line 75). -/
def bundleData (raw : JVal) : JVal :=
  match raw with
  | .obj kvs =>
    let d := pyGetD kvs "data"
    if truthy d then d else .obj []
  | _ => .null

/-- The effective fields value of a bundle: the fields member of the
effective data object, an empty list standing in when absent or falsy
(source line 76). -/
def bundleFieldsVal (raw : JVal) : JVal :=
  match bundleData raw with
  | .obj dkvs =>
    let fr := pyGetD dkvs "fields"
    if truthy fr then fr else .arr []
  | _ => .null

/-- Payload shapes on which the normalization pipeline runs to completion:
an object whose effective data is a dict and whose effective fields value
is a list of well-shaped fields. -/
def wfBundle (raw : JVal) : Bool :=
  match raw with
  | .obj _ =>
    (match bundleData raw with | .obj _ => true | _ => false)
    && (match bundleFieldsVal raw with
        | .arr fs => fs.all wfField
        | _ => false)
  | _ => false

/-- The submission metadata object of a bundle as the code builds it
(source lines 79-86): the six fields read from the effective data object,
None for missing ones. -/
def metaFromData (raw : JVal) : JVal :=
  match bundleData raw with
  | .obj dkvs => .obj [("responseId", pyGetD dkvs "responseId"),
      ("submissionId", pyGetD dkvs "submissionId"),
      ("respondentId", pyGetD dkvs "respondentId"),
      ("formId", pyGetD dkvs "formId"),
      ("formName", pyGetD dkvs "formName"),
      ("createdAt", pyGetD dkvs "createdAt")]
  | _ => .obj []

/-- Field whose key member is not the reserved string _meta. -/
def fieldKeyNotMeta (f : JVal) : Bool :=
  match f with
  | .obj kvs => !(pyEq (pyGetD kvs "key") (.str "_meta"))
  | _ => true

/-- No field of the bundle carries the reserved key _meta. -/
def noMetaKey (raw : JVal) : Bool :=
  match bundleFieldsVal raw with
  | .arr fs => fs.all fieldKeyNotMeta
  | _ => true

/-- Option carrying a string display text, the option shape stated by the
data model of the specification (options: sequence of id and text). -/
def optHasStrText (o : JVal) : Bool :=
  match o with
  | .obj kvs => (match pyGetD kvs "text" with | .str _ => true | _ => false)
  | _ => false

/-- Field whose options member is absent or falsy, or a list of options
each carrying a string display text. -/
def wfChoiceOptions (f : JVal) : Bool :=
  match f with
  | .obj kvs =>
    (let opts := pyGetD kvs "options"
     if truthy opts then
       match opts with
       | .arr os => os.all optHasStrText
       | _ => false
     else true)
  | _ => false

/-- The declared option list of a field, empty when the options member is
absent, falsy or not a list. -/
def optsList (f : JVal) : List JVal :=
  match f with
  | .obj kvs =>
    (match (if truthy (pyGetD kvs "options") then pyGetD kvs "options" else .arr []) with
     | .arr os => os
     | _ => [])
  | _ => []

/-- Option whose id member equals the given identifier under Python
equality. -/
def optIdMatches (oid : JVal) (o : JVal) : Bool :=
  match o with
  | .obj kvs => pyEq (pyGetD kvs "id") oid
  | _ => false

/-- Resolution of one option identifier as the specification words it:
the display text of the option with exactly matching id among the declared
options, the raw identifier standing in when no option matches. Stated
from the specification for comparison against decode_field_value. -/
def resolveChoiceSpec (opts : List JVal) (oid : JVal) : JVal :=
  match opts.find? (optIdMatches oid) with
  | some (.obj kvs) => pyGetD kvs "text"
  | _ => oid

/-- Truncation toward zero of the exact decimal number sign * mantissa *
10 ^ (exp - fracLen). Stated from the wording of the integer-coercion
claim (parse the string as a decimal number and truncate to an integer),
for comparison with the binary-float coercion the code performs. -/
def truncDecimalSpec (neg : Bool) (m : Nat) (fracLen : Nat) (e : Int) : Int :=
  let eff : Int := e - fracLen
  let mag : Nat := if 0 ≤ eff then m * 10 ^ eff.toNat else m / 10 ^ (-eff).toNat
  if neg then -(mag : Int) else mag

/-- Test for a leading 00 on the cleaned phone string. -/
def starts00 : List Char → Bool
  | c1 :: c2 :: _ => c1.toNat == 48 && c2.toNat == 48
  | _ => false

/-- Leading single zero, the national-number shape named by the
specification: a leading 0 not followed by a second 0. -/
def startsSingleZero (l : List Char) : Bool :=
  headIsZero l && !starts00 l

/-- Members of the multiple-choice field used by the specification
example: options Yes and No with ids a and b, raw value a. -/
def mcFieldKvs : List (String × JVal) :=
  [("type", .str "MULTIPLE_CHOICE"), ("value", .str "a"),
   ("options", .arr [.obj [("id", .str "a"), ("text", .str "Yes")],
                     .obj [("id", .str "b"), ("text", .str "No")]])]

/-- The multiple-choice field of the specification example. -/
def mcField : JVal := .obj mcFieldKvs

/-- End-to-end example bundle of the specification: an email field and a
phone field, nothing else. -/
def exBundle : JVal :=
  .obj [("data", .obj [("fields", .arr [
    .obj [("key", .str "question_jyovg9"), ("label", .null),
          ("type", .str "INPUT_EMAIL"), ("value", .str "  FOO@BAR.com ")],
    .obj [("key", .str "question_487zEo"), ("label", .null),
          ("type", .str "PHONE_NUMBER"), ("value", .str "0612345678")]])])]

/-- Answer map carrying only an untrimmed property_type field value. -/
def ptAnswers : List (JVal × JVal) :=
  [((.str "question_WNEKXe"),
    .obj [("label", .null), ("type", .str "TEXT"), ("value", .str "  Maison  ")])]

/-- Answer map carrying only an untrimmed role field value. -/
def roleAnswers : List (JVal × JVal) :=
  [((.str "question_OzXkVA_7be398b7-7e42-4736-b35e-b9a78d556f22"),
    .obj [("label", .null), ("type", .str "TEXT"), ("value", .str " Agent ")])]

/-- Bundle whose responseId sits at the top level while its data object
carries none of the metadata fields. -/
def metaCxBundle : JVal :=
  .obj [("responseId", .str "r1"), ("data", .obj [("fields", .arr [])])]

/-! Helper lemmas about characters, stripping, lowercasing and sentinel
membership. -/

theorem string_eta (s : String) : String.mk s.data = s := by
  cases s
  rfl

theorem toNat_ofNat_valid (n : Nat) (h : n.isValidChar) : (Char.ofNat n).toNat = n := by
  unfold Char.ofNat
  rw [dif_pos h]
  rfl

theorem lowerChar_of_upper (c : Char) (h : 65 ≤ c.toNat ∧ c.toNat ≤ 90) :
    (lowerChar c).toNat = c.toNat + 32 := by
  unfold lowerChar Char.toLower
  rw [if_pos ⟨h.1, h.2⟩]
  exact toNat_ofNat_valid _ (Or.inl (by omega))

theorem lowerChar_of_not_upper (c : Char) (h : ¬(65 ≤ c.toNat ∧ c.toNat ≤ 90)) :
    lowerChar c = c := by
  unfold lowerChar Char.toLower
  rw [if_neg h]

theorem lowerChar_idem (c : Char) : lowerChar (lowerChar c) = lowerChar c := by
  by_cases h : 65 ≤ c.toNat ∧ c.toNat ≤ 90
  · have ht := lowerChar_of_upper c h
    exact lowerChar_of_not_upper _ (by omega)
  · simp [lowerChar_of_not_upper c h]

theorem lowerChar_of_lt (c : Char) (h : c.toNat < 65) : lowerChar c = c :=
  lowerChar_of_not_upper c (by omega)

theorem isPyWs_lowerChar (c : Char) : isPyWs (lowerChar c) = isPyWs c := by
  by_cases h : 65 ≤ c.toNat ∧ c.toNat ≤ 90
  · have ht := lowerChar_of_upper c h
    unfold isPyWs
    rw [ht]
    have hfalse : ∀ m : Nat, 65 ≤ m →
        (m == 32 || m == 9 || m == 10 || m == 13 || m == 11 || m == 12) = false := by
      intro m hm
      simp only [Bool.or_eq_false_iff, beq_eq_false_iff_ne, ne_eq]
      omega
    rw [hfalse _ (by omega), hfalse _ h.1]
  · rw [lowerChar_of_not_upper c h]

theorem dropWhile_idem (p : Char → Bool) (l : List Char) :
    (l.dropWhile p).dropWhile p = l.dropWhile p := by
  induction l with
  | nil => rfl
  | cons a l ih =>
    by_cases h : p a
    · simp [List.dropWhile_cons, h, ih]
    · simp [List.dropWhile_cons, h]

theorem dropWhile_eq_self_of_no_sat (p : Char → Bool) (l : List Char)
    (h : ∀ c ∈ l, p c = false) : l.dropWhile p = l := by
  cases l with
  | nil => rfl
  | cons a r => simp [List.dropWhile_cons, h a (List.mem_cons_self a r)]

theorem pyStripL_eq_self (l : List Char) (h : ∀ c ∈ l, isPyWs c = false) :
    pyStripL l = l := by
  unfold pyStripL
  rw [dropWhile_eq_self_of_no_sat _ _ h,
      dropWhile_eq_self_of_no_sat _ _ (fun c hc => h c (List.mem_reverse.mp hc)),
      List.reverse_reverse]

theorem mem_pyStripL (c : Char) (l : List Char) (h : c ∈ pyStripL l) : c ∈ l := by
  unfold pyStripL at h
  have h1 := List.mem_reverse.mp h
  have h2 := List.dropWhile_subset isPyWs h1
  have h3 := List.mem_reverse.mp h2
  exact List.dropWhile_subset isPyWs h3

theorem pyStripL_idem (l : List Char) : pyStripL (pyStripL l) = pyStripL l := by
  have hfix : (pyStripL l).dropWhile isPyWs = pyStripL l := by
    cases hcr : pyStripL l with
    | nil => simp
    | cons c cs =>
      obtain ⟨t, ht⟩ := List.dropWhile_suffix (l := (l.dropWhile isPyWs).reverse) isPyWs
      have hA : l.dropWhile isPyWs = (pyStripL l) ++ t.reverse := by
        have := congrArg List.reverse ht
        simp only [List.reverse_append, List.reverse_reverse] at this
        rw [← this]
        rfl
      have hhead2 : l.dropWhile isPyWs = c :: (cs ++ t.reverse) := by
        rw [hA, hcr]
        rfl
      have hnotws : isPyWs c = false := by
        have hw := List.head?_dropWhile_not isPyWs l
        rw [hhead2] at hw
        simpa using hw
      rw [List.dropWhile_cons_of_neg (by simp [hnotws])]
  show (((pyStripL l).dropWhile isPyWs).reverse.dropWhile isPyWs).reverse = pyStripL l
  rw [hfix]
  have hrev : (pyStripL l).reverse = (l.dropWhile isPyWs).reverse.dropWhile isPyWs := by
    unfold pyStripL
    rw [List.reverse_reverse]
  rw [hrev, dropWhile_idem]
  rfl

theorem pyStrip_idem (s : String) : pyStrip (pyStrip s) = pyStrip s := by
  unfold pyStrip
  rw [pyStripL_idem]

theorem pyStripL_map_lower (l : List Char) :
    pyStripL (l.map lowerChar) = (pyStripL l).map lowerChar := by
  have hp : (isPyWs ∘ lowerChar) = isPyWs := funext isPyWs_lowerChar
  unfold pyStripL
  rw [List.dropWhile_map, hp, ← List.map_reverse, List.dropWhile_map, hp, ← List.map_reverse]

theorem pyLower_idem (s : String) : pyLower (pyLower s) = pyLower s := by
  unfold pyLower
  simp only [List.map_map]
  have hcomp : (lowerChar ∘ lowerChar) = lowerChar := funext fun c => lowerChar_idem c
  rw [hcomp]

theorem pyStrip_pyLower (s : String) :
    pyStrip (pyLower (pyStrip s)) = pyLower (pyStrip s) := by
  unfold pyStrip pyLower
  simp only
  rw [pyStripL_map_lower, pyStripL_idem]

theorem string_mk_eq (l : List Char) (s : String) : (⟨l⟩ : String) = s ↔ l = s.data := by
  constructor
  · intro h
    have := congrArg String.data h
    simpa using this
  · intro h
    rw [h, string_eta]

theorem contains_sentinels (s : String) :
    EMPTY_STRINGS.contains s = true ↔
      (s = "" ∨ s = " " ∨ s = "null" ∨ s = "none" ∨ s = "n/a" ∨ s = "na" ∨ s = "undefined") := by
  simp [EMPTY_STRINGS]

theorem phoneChar_facts (c : Char) (h : isPhoneChar c = true) :
    (48 ≤ c.toNat ∧ c.toNat ≤ 57) ∨ c.toNat = 43 := by
  unfold isPhoneChar isDigitChar at h
  simp only [Bool.or_eq_true, Bool.and_eq_true, decide_eq_true_eq, beq_iff_eq] at h
  exact h

theorem isPyWs_false_of_phoneChar (c : Char) (h : isPhoneChar c = true) : isPyWs c = false := by
  have hf := phoneChar_facts c h
  unfold isPyWs
  simp only [Bool.or_eq_false_iff, beq_eq_false_iff_ne, ne_eq]
  omega

theorem lowerChar_eq_self_of_phoneChar (c : Char) (h : isPhoneChar c = true) :
    lowerChar c = c := by
  have hf := phoneChar_facts c h
  exact lowerChar_of_lt c (by omega)

theorem contains_sentinels_false_of_at (s : String) (h : '@' ∈ s.data) :
    EMPTY_STRINGS.contains s = false := by
  cases hc : EMPTY_STRINGS.contains s with
  | false => rfl
  | true =>
    exfalso
    rcases (contains_sentinels s).mp hc with h1 | h1 | h1 | h1 | h1 | h1 | h1 <;>
      (subst h1; exact absurd h (by decide))

theorem contains_sentinels_false_of_phoneChars (s : String) (hne : s.data ≠ [])
    (hall : ∀ c ∈ s.data, isPhoneChar c = true) :
    EMPTY_STRINGS.contains s = false := by
  cases hc : EMPTY_STRINGS.contains s with
  | false => rfl
  | true =>
    exfalso
    rcases (contains_sentinels s).mp hc with h1 | h1 | h1 | h1 | h1 | h1 | h1
    · subst h1
      exact hne rfl
    · subst h1
      exact absurd (hall ' ' (by decide)) (by decide)
    · subst h1
      exact absurd (hall 'n' (by decide)) (by decide)
    · subst h1
      exact absurd (hall 'n' (by decide)) (by decide)
    · subst h1
      exact absurd (hall 'n' (by decide)) (by decide)
    · subst h1
      exact absurd (hall 'n' (by decide)) (by decide)
    · subst h1
      exact absurd (hall 'u' (by decide)) (by decide)

theorem pyEq_str_right (v : JVal) (s : String) : pyEq v (.str s) = true ↔ v = .str s := by
  cases v with
  | null =>
    rw [show pyEq JVal.null (.str s) = false from rfl]
    simp
  | bool b =>
    rw [show pyEq (JVal.bool b) (.str s) = false from rfl]
    simp
  | num n =>
    rw [show pyEq (JVal.num n) (.str s) = false from rfl]
    simp
  | str a =>
    rw [show pyEq (JVal.str a) (.str s) = (a == s) from rfl]
    simp
  | arr xs =>
    rw [show pyEq (JVal.arr xs) (.str s) = false from rfl]
    simp
  | obj kvs =>
    rw [show pyEq (JVal.obj kvs) (.str s) = false from rfl]
    simp

theorem pyEq_str_left (s : String) (v : JVal) : pyEq (.str s) v = true ↔ v = .str s := by
  cases v with
  | null =>
    rw [show pyEq (.str s) JVal.null = false from rfl]
    simp
  | bool b =>
    rw [show pyEq (.str s) (JVal.bool b) = false from rfl]
    simp
  | num n =>
    rw [show pyEq (.str s) (JVal.num n) = false from rfl]
    simp
  | str a =>
    rw [show pyEq (.str s) (JVal.str a) = (s == a) from rfl]
    constructor
    · intro h
      rw [eq_of_beq h]
    · intro h
      injection h with h2
      rw [h2]
      simp
  | arr xs =>
    rw [show pyEq (.str s) (JVal.arr xs) = false from rfl]
    simp
  | obj kvs =>
    rw [show pyEq (.str s) (JVal.obj kvs) = false from rfl]
    simp

theorem rewrite00_cons (c1 c2 : Char) (rest : List Char) :
    rewrite00 (c1 :: c2 :: rest) =
      if (c1.toNat == 48 && c2.toNat == 48) = true then '+' :: rest
      else c1 :: c2 :: rest := rfl

theorem starts00_cons (c1 c2 : Char) (rest : List Char) :
    starts00 (c1 :: c2 :: rest) = (c1.toNat == 48 && c2.toNat == 48) := rfl

theorem starts00_rewrite00 (l : List Char) : starts00 (rewrite00 l) = false := by
  cases l with
  | nil => rfl
  | cons c1 r =>
    cases r with
    | nil => rfl
    | cons c2 rest =>
      rw [rewrite00_cons]
      by_cases h : (c1.toNat == 48 && c2.toNat == 48) = true
      · rw [if_pos h]
        cases rest with
        | nil => rfl
        | cons c3 r3 =>
          rw [starts00_cons]
          simp
      · rw [if_neg h, starts00_cons]
        simpa using h

theorem rewrite00_eq_self (l : List Char) (h : starts00 l = false) : rewrite00 l = l := by
  cases l with
  | nil => rfl
  | cons c1 r =>
    cases r with
    | nil => rfl
    | cons c2 rest =>
      rw [starts00_cons] at h
      rw [rewrite00_cons, if_neg (by simp [h])]

theorem startsSingleZero_eq_headIsZero (l : List Char) (h : starts00 l = false) :
    startsSingleZero l = headIsZero l := by
  unfold startsSingleZero
  rw [h]
  simp

theorem mem_rewrite00 (c : Char) (l : List Char) (h : c ∈ rewrite00 l) :
    c ∈ l ∨ c = '+' := by
  cases l with
  | nil => exact Or.inl h
  | cons c1 r =>
    cases r with
    | nil => exact Or.inl h
    | cons c2 rest =>
      rw [rewrite00_cons] at h
      by_cases hc : (c1.toNat == 48 && c2.toNat == 48) = true
      · rw [if_pos hc] at h
        rcases List.mem_cons.mp h with h2 | h2
        · exact Or.inr h2
        · exact Or.inl (by simp [h2])
      · rw [if_neg hc] at h
        exact Or.inl h

theorem phoneChar_of_digitChar (c : Char) (h : isDigitChar c = true) :
    isPhoneChar c = true := by
  simp [isPhoneChar, h]

theorem mem_phoneCleaned (c : Char) (v : JVal) (h : c ∈ phoneCleaned v) :
    isPhoneChar c = true := by
  unfold phoneCleaned at h
  rcases mem_rewrite00 c _ h with h2 | h2
  · exact (List.mem_filter.mp h2).2
  · subst h2
    decide

theorem starts00_phoneCleaned (v : JVal) : starts00 (phoneCleaned v) = false := by
  unfold phoneCleaned
  exact starts00_rewrite00 _

/-! Lemmas about the phone and email normalizers. -/

theorem norm_phone_empty (v : JVal) (h : is_empty v = true) : norm_phone v = none := by
  unfold norm_phone
  rw [if_pos (by simp [h])]

theorem norm_phone_not_empty (v : JVal) (h : is_empty v = false) :
    norm_phone v =
      (if (headIsZero (phoneCleaned v) && (((phoneCleaned v).filter isDigitChar).length == 10)) = true
       then some ⟨'+' :: '3' :: '3' :: ((phoneCleaned v).filter isDigitChar).drop 1⟩
       else some ⟨phoneCleaned v⟩) := by
  unfold norm_phone
  rw [if_neg (by simp [h])]

theorem norm_phone_chars (v : JVal) (r : String) (h : norm_phone v = some r) :
    ∀ c ∈ r.data, isPhoneChar c = true := by
  by_cases he : is_empty v = true
  · rw [norm_phone_empty v he] at h
    exact absurd h (by simp)
  · rw [norm_phone_not_empty v (by simpa using he)] at h
    by_cases hc : (headIsZero (phoneCleaned v) && (((phoneCleaned v).filter isDigitChar).length == 10)) = true
    · rw [if_pos hc] at h
      injection h with h2
      intro c hmem
      rw [← h2] at hmem
      rcases List.mem_cons.mp hmem with h3 | hmem2
      · subst h3
        decide
      rcases List.mem_cons.mp hmem2 with h3 | hmem3
      · subst h3
        decide
      rcases List.mem_cons.mp hmem3 with h3 | hmem4
      · subst h3
        decide
      · have hfd := List.mem_of_mem_drop hmem4
        exact phoneChar_of_digitChar c (List.mem_filter.mp hfd).2
    · rw [if_neg hc] at h
      injection h with h2
      intro c hmem
      rw [← h2] at hmem
      exact mem_phoneCleaned c v hmem

theorem phoneCleaned_fixed (r : String) (hall : ∀ c ∈ r.data, isPhoneChar c = true)
    (h00 : starts00 r.data = false) : phoneCleaned (.str r) = r.data := by
  unfold phoneCleaned
  rw [show pyStr (.str r) = r from rfl]
  rw [pyStripL_eq_self _ (fun c hc => isPyWs_false_of_phoneChar c (hall c hc))]
  rw [List.filter_eq_self.mpr hall]
  exact rewrite00_eq_self _ h00

theorem pyStrip_eq_self_of_phoneChars (r : String)
    (hall : ∀ c ∈ r.data, isPhoneChar c = true) : pyStrip r = r := by
  unfold pyStrip
  rw [pyStripL_eq_self _ (fun c hc => isPyWs_false_of_phoneChar c (hall c hc)), string_eta]

theorem pyLower_eq_self_of_phoneChars (r : String)
    (hall : ∀ c ∈ r.data, isPhoneChar c = true) : pyLower r = r := by
  unfold pyLower
  have h2 : r.data.map lowerChar = r.data.map id :=
    List.map_congr_left (fun c hc => lowerChar_eq_self_of_phoneChar c (hall c hc))
  rw [h2, List.map_id, string_eta]

theorem is_empty_phone_str (r : String) (hne : r.data ≠ [])
    (hall : ∀ c ∈ r.data, isPhoneChar c = true) : is_empty (.str r) = false := by
  show EMPTY_STRINGS.contains (pyLower (pyStrip r)) = false
  rw [pyStrip_eq_self_of_phoneChars r hall, pyLower_eq_self_of_phoneChars r hall]
  exact contains_sentinels_false_of_phoneChars r hne hall

theorem norm_email_empty (v : JVal) (h : is_empty v = true) : norm_email v = none := by
  unfold norm_email
  rw [if_pos (by simp [h])]

theorem norm_email_not_empty (v : JVal) (h : is_empty v = false) :
    norm_email v =
      (if (pyLower (pyStrip (pyStr v))).data.contains '@' = true
       then some (pyLower (pyStrip (pyStr v))) else none) := by
  unfold norm_email
  rw [if_neg (by simp [h])]

theorem norm_email_some (v : JVal) (r : String) (h : norm_email v = some r) :
    r = pyLower (pyStrip (pyStr v)) ∧ r.data.contains '@' = true := by
  by_cases he : is_empty v = true
  · rw [norm_email_empty v he] at h
    exact absurd h (by simp)
  · rw [norm_email_not_empty v (by simpa using he)] at h
    by_cases hc : (pyLower (pyStrip (pyStr v))).data.contains '@' = true
    · rw [if_pos hc] at h
      injection h with h2
      exact ⟨h2.symm, h2 ▸ hc⟩
    · rw [if_neg hc] at h
      exact absurd h (by simp)

theorem norm_email_idem (v : JVal) (r : String) (h : norm_email v = some r) :
    norm_email (.str r) = some r := by
  obtain ⟨hr, hat⟩ := norm_email_some v r h
  have hat2 : '@' ∈ r.data := List.elem_iff.mp hat
  have hfix : pyStrip r = r := by
    rw [hr, pyStrip_pyLower]
  have hlowfix : pyLower r = r := by
    rw [hr]
    exact pyLower_idem _
  have hempty : is_empty (.str r) = false := by
    show EMPTY_STRINGS.contains (pyLower (pyStrip r)) = false
    rw [hfix, hlowfix]
    exact contains_sentinels_false_of_at r hat2
  rw [norm_email_not_empty _ hempty, show pyStr (.str r) = r from rfl, hfix, hlowfix,
    if_pos hat]

theorem norm_phone_idem (v : JVal) (r : String) (h : norm_phone v = some r) (hne : r ≠ "") :
    norm_phone (.str r) = some r := by
  have hall := norm_phone_chars v r h
  have hdne : r.data ≠ [] := by
    intro hd
    apply hne
    rw [← string_eta r, hd]
  have hempty := is_empty_phone_str r hdne hall
  by_cases he : is_empty v = true
  · rw [norm_phone_empty v he] at h
    exact absurd h (by simp)
  have he2 : is_empty v = false := by simpa using he
  rw [norm_phone_not_empty v he2] at h
  by_cases hc : (headIsZero (phoneCleaned v) && (((phoneCleaned v).filter isDigitChar).length == 10)) = true
  · rw [if_pos hc] at h
    injection h with h2
    have hdata : r.data = '+' :: '3' :: '3' :: ((phoneCleaned v).filter isDigitChar).drop 1 := by
      rw [← h2]
    have h00 : starts00 r.data = false := by
      rw [hdata]
      rfl
    have hclean := phoneCleaned_fixed r hall h00
    rw [norm_phone_not_empty _ hempty, hclean]
    have hhz : headIsZero r.data = false := by
      rw [hdata]
      rfl
    rw [hhz, if_neg (by simp), string_eta]
  · rw [if_neg hc] at h
    injection h with h2
    have hdata : r.data = phoneCleaned v := by
      rw [← h2]
    have h00 : starts00 r.data = false := by
      rw [hdata]
      exact starts00_phoneCleaned v
    have hclean := phoneCleaned_fixed r hall h00
    rw [norm_phone_not_empty _ hempty, hclean, hdata, if_neg hc, ← hdata, string_eta]

/-! Lemmas about the field decoding and answer building machinery. -/

theorem ebind_ok {α β : Type} (x : α) (f : α → Except String β) :
    Bind.bind (Except.ok x) f = f x := rfl

theorem findOptText_cons_obj (kvs : List (String × JVal)) (rest : List JVal) (oid : JVal) :
    findOptText (JVal.obj kvs :: rest) oid =
      if pyEq (pyGetD kvs "id") oid = true then Except.ok (pyGetD kvs "text")
      else findOptText rest oid := rfl

theorem option_id_to_text_eval (kvs : List (String × JVal)) (oid : JVal) :
    option_id_to_text (.obj kvs) oid =
      Bind.bind (pyIterElems (if truthy (pyGetD kvs "options") = true
          then pyGetD kvs "options" else .arr []))
        (fun opts => findOptText opts oid) := by
  simp only [option_id_to_text, pyGet, ebind_ok]

theorem option_id_to_text_arr (kvs : List (String × JVal)) (os : List JVal) (oid : JVal)
    (hsh : pyGetD kvs "options" = .arr os) (ht : truthy (.arr os) = true) :
    option_id_to_text (.obj kvs) oid = findOptText os oid := by
  rw [option_id_to_text_eval, hsh, if_pos ht]
  rfl

theorem option_id_to_text_falsy (kvs : List (String × JVal)) (oid : JVal)
    (ht : truthy (pyGetD kvs "options") = false) :
    option_id_to_text (.obj kvs) oid = .ok .null := by
  rw [option_id_to_text_eval, if_neg (by simp [ht])]
  rfl

theorem findOptText_ok (opts : List JVal) (oid : JVal)
    (h : ∀ o ∈ opts, ∃ okvs, o = JVal.obj okvs) : ∃ t, findOptText opts oid = .ok t := by
  induction opts with
  | nil => exact ⟨.null, rfl⟩
  | cons o rest ih =>
    obtain ⟨okvs, hk⟩ := h o (List.mem_cons_self o rest)
    subst hk
    rw [findOptText_cons_obj]
    by_cases hid : pyEq (pyGetD okvs "id") oid = true
    · exact ⟨pyGetD okvs "text", by rw [if_pos hid]⟩
    · obtain ⟨t, ht⟩ := ih (fun o ho => h o (List.mem_cons_of_mem _ ho))
      exact ⟨t, by rw [if_neg hid, ht]⟩

theorem findOptText_spec (opts : List JVal) (oid : JVal)
    (h : ∀ o ∈ opts, optHasStrText o = true) :
    ∃ t, findOptText opts oid = .ok t ∧ fallbackOr t oid = resolveChoiceSpec opts oid := by
  induction opts with
  | nil => exact ⟨.null, rfl, rfl⟩
  | cons o rest ih =>
    have ho := h o (List.mem_cons_self o rest)
    cases o with
    | obj okvs =>
      have hts : ∃ ts, pyGetD okvs "text" = JVal.str ts := by
        have ho2 : (match pyGetD okvs "text" with
            | JVal.str _ => true
            | _ => false) = true := ho
        cases hsh : pyGetD okvs "text" with
        | str ts => exact ⟨ts, rfl⟩
        | null => rw [hsh] at ho2; exact absurd ho2 (by simp)
        | bool b => rw [hsh] at ho2; exact absurd ho2 (by simp)
        | num n => rw [hsh] at ho2; exact absurd ho2 (by simp)
        | arr xs => rw [hsh] at ho2; exact absurd ho2 (by simp)
        | obj xkvs => rw [hsh] at ho2; exact absurd ho2 (by simp)
      obtain ⟨ts, hts2⟩ := hts
      by_cases hid : pyEq (pyGetD okvs "id") oid = true
      · refine ⟨.str ts, ?_, ?_⟩
        · rw [findOptText_cons_obj, if_pos hid, hts2]
        · show JVal.str ts = resolveChoiceSpec (JVal.obj okvs :: rest) oid
          unfold resolveChoiceSpec
          rw [List.find?_cons_of_pos _
            (show optIdMatches oid (JVal.obj okvs) = true from hid)]
          show JVal.str ts = pyGetD okvs "text"
          exact hts2.symm
      · obtain ⟨t, h1, h2⟩ := ih (fun x hx => h x (List.mem_cons_of_mem _ hx))
        refine ⟨t, ?_, ?_⟩
        · rw [findOptText_cons_obj, if_neg hid, h1]
        · rw [h2]
          show resolveChoiceSpec rest oid = resolveChoiceSpec (JVal.obj okvs :: rest) oid
          unfold resolveChoiceSpec
          rw [List.find?_cons_of_neg _
            (show ¬(optIdMatches oid (JVal.obj okvs) = true) from hid)]
    | null => exact absurd ho (by simp [optHasStrText])
    | bool b => exact absurd ho (by simp [optHasStrText])
    | num n => exact absurd ho (by simp [optHasStrText])
    | str s => exact absurd ho (by simp [optHasStrText])
    | arr xs => exact absurd ho (by simp [optHasStrText])

theorem option_id_to_text_spec (kvs : List (String × JVal)) (oid : JVal)
    (hwf : wfChoiceOptions (.obj kvs) = true) :
    ∃ t, option_id_to_text (.obj kvs) oid = .ok t ∧
      fallbackOr t oid = resolveChoiceSpec (optsList (.obj kvs)) oid := by
  have hwf2 : (if truthy (pyGetD kvs "options") = true then
      (match pyGetD kvs "options" with
        | JVal.arr os => os.all optHasStrText
        | _ => false)
    else true) = true := hwf
  by_cases ht : truthy (pyGetD kvs "options") = true
  · rw [if_pos ht] at hwf2
    cases hsh : pyGetD kvs "options" with
    | arr os =>
      rw [hsh] at hwf2
      have hall : os.all optHasStrText = true := hwf2
      have hall2 : ∀ o ∈ os, optHasStrText o = true := by
        simpa [List.all_eq_true] using hall
      obtain ⟨t, h1, h2⟩ := findOptText_spec os oid hall2
      have hol : optsList (JVal.obj kvs) = os := by
        show (match (if truthy (pyGetD kvs "options") = true
            then pyGetD kvs "options" else JVal.arr []) with
          | JVal.arr os2 => os2
          | _ => []) = os
        rw [hsh, if_pos (hsh ▸ ht)]
      refine ⟨t, ?_, ?_⟩
      · rw [option_id_to_text_arr kvs os oid hsh (hsh ▸ ht), h1]
      · rw [h2, hol]
    | null => rw [hsh] at hwf2; exact absurd hwf2 (by simp)
    | bool b => rw [hsh] at hwf2; exact absurd hwf2 (by simp)
    | num n => rw [hsh] at hwf2; exact absurd hwf2 (by simp)
    | str s => rw [hsh] at hwf2; exact absurd hwf2 (by simp)
    | obj okvs => rw [hsh] at hwf2; exact absurd hwf2 (by simp)
  · have ht2 : truthy (pyGetD kvs "options") = false := by simpa using ht
    refine ⟨.null, option_id_to_text_falsy kvs oid ht2, ?_⟩
    have hol : optsList (JVal.obj kvs) = [] := by
      show (match (if truthy (pyGetD kvs "options") = true
          then pyGetD kvs "options" else JVal.arr []) with
        | JVal.arr os2 => os2
        | _ => []) = []
      rw [if_neg (by simp [ht2])]
    rw [hol]
    rfl

theorem option_id_to_text_ok (kvs : List (String × JVal)) (oid : JVal)
    (hwf : wfOptionsVal (pyGetD kvs "options") = true) :
    ∃ t, option_id_to_text (.obj kvs) oid = .ok t := by
  have hwf2 : (if truthy (pyGetD kvs "options") = true then
      (match pyGetD kvs "options" with
        | JVal.arr os => os.all (fun o => match o with | JVal.obj _ => true | _ => false)
        | _ => false)
    else true) = true := hwf
  by_cases ht : truthy (pyGetD kvs "options") = true
  · rw [if_pos ht] at hwf2
    cases hsh : pyGetD kvs "options" with
    | arr os =>
      rw [hsh] at hwf2
      have hall : ∀ o ∈ os, ∃ okvs, o = JVal.obj okvs := by
        intro o ho
        have h2 := (List.all_eq_true.mp hwf2) o ho
        cases o with
        | obj okvs => exact ⟨okvs, rfl⟩
        | null => exact absurd h2 (by simp)
        | bool b => exact absurd h2 (by simp)
        | num n => exact absurd h2 (by simp)
        | str s => exact absurd h2 (by simp)
        | arr xs => exact absurd h2 (by simp)
      obtain ⟨t, htt⟩ := findOptText_ok os oid hall
      exact ⟨t, by rw [option_id_to_text_arr kvs os oid hsh (hsh ▸ ht), htt]⟩
    | null => rw [hsh] at hwf2; exact absurd hwf2 (by simp)
    | bool b => rw [hsh] at hwf2; exact absurd hwf2 (by simp)
    | num n => rw [hsh] at hwf2; exact absurd hwf2 (by simp)
    | str s => rw [hsh] at hwf2; exact absurd hwf2 (by simp)
    | obj okvs => rw [hsh] at hwf2; exact absurd hwf2 (by simp)
  · exact ⟨.null, option_id_to_text_falsy kvs oid (by simpa using ht)⟩

theorem decodeChoiceList_spec (kvs : List (String × JVal)) (oids : List JVal)
    (hwf : wfChoiceOptions (.obj kvs) = true) :
    decodeChoiceList (.obj kvs) oids =
      .ok (oids.map (resolveChoiceSpec (optsList (.obj kvs)))) := by
  induction oids with
  | nil => rfl
  | cons oid rest ih =>
    obtain ⟨t, h1, h2⟩ := option_id_to_text_spec kvs oid hwf
    show Bind.bind (option_id_to_text (.obj kvs) oid) (fun t2 =>
      Bind.bind (decodeChoiceList (.obj kvs) rest) (fun texts =>
        Except.ok (fallbackOr t2 oid :: texts))) = _
    rw [h1, ebind_ok, ih, ebind_ok, h2]
    rfl

theorem decodeChoiceList_ok (kvs : List (String × JVal)) (oids : List JVal)
    (hwf : wfOptionsVal (pyGetD kvs "options") = true) :
    ∃ ts, decodeChoiceList (.obj kvs) oids = .ok ts := by
  induction oids with
  | nil => exact ⟨[], rfl⟩
  | cons oid rest ih =>
    obtain ⟨t, ht⟩ := option_id_to_text_ok kvs oid hwf
    obtain ⟨ts, hts⟩ := ih
    refine ⟨fallbackOr t oid :: ts, ?_⟩
    show Bind.bind (option_id_to_text (.obj kvs) oid) (fun t2 =>
      Bind.bind (decodeChoiceList (.obj kvs) rest) (fun texts =>
        Except.ok (fallbackOr t2 oid :: texts))) = _
    rw [ht, ebind_ok, hts, ebind_ok]

theorem decode_not_mc (kvs : List (String × JVal))
    (htype : pyEq (pyGetD kvs "type") (.str "MULTIPLE_CHOICE") = false) :
    decode_field_value (.obj kvs) = .ok (pyGetD kvs "value") := by
  simp only [decode_field_value, pyGet, ebind_ok]
  rw [if_neg (by simp [htype])]

theorem decode_mc_null (kvs : List (String × JVal))
    (htype : pyEq (pyGetD kvs "type") (.str "MULTIPLE_CHOICE") = true)
    (hv : pyGetD kvs "value" = .null) :
    decode_field_value (.obj kvs) = .ok .null := by
  simp only [decode_field_value, pyGet, ebind_ok]
  rw [if_pos htype, hv]

theorem decode_mc_str (kvs : List (String × JVal)) (sv : String) (t : JVal)
    (htype : pyEq (pyGetD kvs "type") (.str "MULTIPLE_CHOICE") = true)
    (hv : pyGetD kvs "value" = .str sv)
    (ht : option_id_to_text (.obj kvs) (.str sv) = .ok t) :
    decode_field_value (.obj kvs) = .ok (fallbackOr t (.str sv)) := by
  simp only [decode_field_value, pyGet, ebind_ok]
  rw [if_pos htype, hv]
  show Bind.bind (option_id_to_text (.obj kvs) (.str sv))
    (fun t2 => Except.ok (fallbackOr t2 (.str sv))) = _
  rw [ht, ebind_ok]

theorem decode_mc_arr (kvs : List (String × JVal)) (oids ts : List JVal)
    (htype : pyEq (pyGetD kvs "type") (.str "MULTIPLE_CHOICE") = true)
    (hv : pyGetD kvs "value" = .arr oids)
    (hts : decodeChoiceList (.obj kvs) oids = .ok ts) :
    decode_field_value (.obj kvs) = .ok (.arr ts) := by
  simp only [decode_field_value, pyGet, ebind_ok]
  rw [if_pos htype, hv]
  show Bind.bind (decodeChoiceList (.obj kvs) oids)
    (fun texts => Except.ok (JVal.arr texts)) = _
  rw [hts, ebind_ok]

theorem decode_field_value_ok (f : JVal) (hwf : wfField f = true) :
    ∃ v, decode_field_value f = .ok v := by
  cases f with
  | obj kvs =>
    have hopt : wfOptionsVal (pyGetD kvs "options") = true := by
      unfold wfField at hwf
      rw [Bool.and_eq_true] at hwf
      exact hwf.2
    by_cases htype : pyEq (pyGetD kvs "type") (.str "MULTIPLE_CHOICE") = true
    · cases hv : pyGetD kvs "value" with
      | null => exact ⟨.null, decode_mc_null kvs htype hv⟩
      | str sv =>
        obtain ⟨t, ht⟩ := option_id_to_text_ok kvs (.str sv) hopt
        exact ⟨fallbackOr t (.str sv), decode_mc_str kvs sv t htype hv ht⟩
      | arr oids =>
        obtain ⟨ts, hts⟩ := decodeChoiceList_ok kvs oids hopt
        exact ⟨.arr ts, decode_mc_arr kvs oids ts htype hv hts⟩
      | bool b =>
        refine ⟨.bool b, ?_⟩
        simp only [decode_field_value, pyGet, ebind_ok]
        rw [if_pos htype, hv]
      | num n =>
        refine ⟨.num n, ?_⟩
        simp only [decode_field_value, pyGet, ebind_ok]
        rw [if_pos htype, hv]
      | obj okvs =>
        refine ⟨.obj okvs, ?_⟩
        simp only [decode_field_value, pyGet, ebind_ok]
        rw [if_pos htype, hv]
    · exact ⟨pyGetD kvs "value", decode_not_mc kvs (by simpa using htype)⟩
  | null => exact absurd hwf (by simp [wfField])
  | bool b => exact absurd hwf (by simp [wfField])
  | num n => exact absurd hwf (by simp [wfField])
  | str s => exact absurd hwf (by simp [wfField])
  | arr xs => exact absurd hwf (by simp [wfField])

theorem addFields_cons_obj (kvs : List (String × JVal)) (rest : List JVal)
    (acc : List (JVal × JVal)) :
    addFields (JVal.obj kvs :: rest) acc =
      (if truthy (pyGetD kvs "key") = true then
        match pyGetD kvs "key" with
        | JVal.arr _ => Except.error "TypeError"
        | JVal.obj _ => Except.error "TypeError"
        | _ => do
            let v ← decode_field_value (JVal.obj kvs)
            addFields rest (dictSet acc (pyGetD kvs "key")
              (.obj [("label", pyGetD kvs "label"), ("type", pyGetD kvs "type"), ("value", v)]))
      else addFields rest acc) := rfl

theorem addFields_cons_obj_go (kvs : List (String × JVal)) (rest : List JVal)
    (acc : List (JVal × JVal)) (ht : truthy (pyGetD kvs "key") = true)
    (hhash : hashableKey (pyGetD kvs "key") = true) (v : JVal)
    (hv : decode_field_value (.obj kvs) = .ok v) :
    addFields (JVal.obj kvs :: rest) acc =
      addFields rest (dictSet acc (pyGetD kvs "key")
        (.obj [("label", pyGetD kvs "label"), ("type", pyGetD kvs "type"), ("value", v)])) := by
  rw [addFields_cons_obj, if_pos ht]
  cases hk : pyGetD kvs "key" with
  | arr xs => rw [hk] at hhash; exact absurd hhash (by simp [hashableKey])
  | obj okvs => rw [hk] at hhash; exact absurd hhash (by simp [hashableKey])
  | null => rw [hk] at ht; exact absurd ht (by simp [truthy])
  | bool b =>
    show Bind.bind (decode_field_value (JVal.obj kvs)) _ = _
    rw [hv, ebind_ok, ← hk]
  | num n =>
    show Bind.bind (decode_field_value (JVal.obj kvs)) _ = _
    rw [hv, ebind_ok, ← hk]
  | str s =>
    show Bind.bind (decode_field_value (JVal.obj kvs)) _ = _
    rw [hv, ebind_ok, ← hk]

theorem addFields_ok : ∀ (fs : List JVal) (acc : List (JVal × JVal)),
    fs.all wfField = true → ∃ a, addFields fs acc = .ok a := by
  intro fs
  induction fs with
  | nil =>
    intro acc h
    exact ⟨acc, rfl⟩
  | cons f rest ih =>
    intro acc h
    rw [List.all_cons, Bool.and_eq_true] at h
    obtain ⟨hf, hrest⟩ := h
    cases f with
    | obj kvs =>
      by_cases ht : truthy (pyGetD kvs "key") = true
      · have hhash : hashableKey (pyGetD kvs "key") = true := by
          unfold wfField at hf
          rw [Bool.and_eq_true] at hf
          exact hf.1
        obtain ⟨v, hv⟩ := decode_field_value_ok (.obj kvs) hf
        rw [addFields_cons_obj_go kvs rest acc ht hhash v hv]
        exact ih _ hrest
      · rw [addFields_cons_obj, if_neg ht]
        exact ih acc hrest
    | null => exact absurd hf (by simp [wfField])
    | bool b => exact absurd hf (by simp [wfField])
    | num n => exact absurd hf (by simp [wfField])
    | str s => exact absurd hf (by simp [wfField])
    | arr xs => exact absurd hf (by simp [wfField])

theorem dictGet_cons (k2 v2 : JVal) (r : List (JVal × JVal)) (k : JVal) :
    dictGet ((k2, v2) :: r) k =
      if pyEq k2 k = true then some v2 else dictGet r k := rfl

theorem dictSet_cons (k2 v2 : JVal) (r : List (JVal × JVal)) (k v : JVal) :
    dictSet ((k2, v2) :: r) k v =
      if pyEq k2 k = true then (k2, v) :: r else (k2, v2) :: dictSet r k v := rfl

theorem dictGet_dictSet_str_ne (d : List (JVal × JVal)) (k v : JVal) (m : String)
    (h : pyEq k (.str m) = false) :
    dictGet (dictSet d k v) (.str m) = dictGet d (.str m) := by
  induction d with
  | nil =>
    rw [show dictSet [] k v = [(k, v)] from rfl, dictGet_cons, if_neg (by simp [h])]
  | cons p r ih =>
    obtain ⟨k2, v2⟩ := p
    rw [dictSet_cons]
    by_cases h2 : pyEq k2 k = true
    · rw [if_pos h2, dictGet_cons, dictGet_cons]
      by_cases h3 : pyEq k2 (.str m) = true
      · exfalso
        have hk2 : k2 = .str m := (pyEq_str_right k2 m).mp h3
        rw [hk2] at h2
        have hkm : k = .str m := (pyEq_str_left m k).mp h2
        rw [hkm] at h
        rw [show pyEq (JVal.str m) (.str m) = (m == m) from rfl] at h
        simp at h
      · rw [if_neg h3, if_neg h3]
    · rw [if_neg h2, dictGet_cons, dictGet_cons]
      by_cases h3 : pyEq k2 (.str m) = true
      · rw [if_pos h3, if_pos h3]
      · rw [if_neg h3, if_neg h3, ih]

theorem addFields_meta : ∀ (fs : List JVal) (acc a : List (JVal × JVal)),
    fs.all wfField = true → fs.all fieldKeyNotMeta = true →
    addFields fs acc = .ok a →
    dictGet a (.str "_meta") = dictGet acc (.str "_meta") := by
  intro fs
  induction fs with
  | nil =>
    intro acc a h hk ha
    have h2 : Except.ok (ε := String) acc = .ok a := ha
    injection h2 with h3
    rw [← h3]
  | cons f rest ih =>
    intro acc a h hk ha
    rw [List.all_cons, Bool.and_eq_true] at h hk
    obtain ⟨hf, hrest⟩ := h
    obtain ⟨hkf, hkrest⟩ := hk
    cases f with
    | obj kvs =>
      by_cases ht : truthy (pyGetD kvs "key") = true
      · have hhash : hashableKey (pyGetD kvs "key") = true := by
          unfold wfField at hf
          rw [Bool.and_eq_true] at hf
          exact hf.1
        obtain ⟨v, hv⟩ := decode_field_value_ok (.obj kvs) hf
        rw [addFields_cons_obj_go kvs rest acc ht hhash v hv] at ha
        have hne : pyEq (pyGetD kvs "key") (.str "_meta") = false := by
          unfold fieldKeyNotMeta at hkf
          simpa using hkf
        rw [ih _ _ hrest hkrest ha, dictGet_dictSet_str_ne _ _ _ _ hne]
      · rw [addFields_cons_obj, if_neg ht] at ha
        exact ih _ _ hrest hkrest ha
    | null => exact absurd hf (by simp [wfField])
    | bool b => exact absurd hf (by simp [wfField])
    | num n => exact absurd hf (by simp [wfField])
    | str s => exact absurd hf (by simp [wfField])
    | arr xs => exact absurd hf (by simp [wfField])

theorem metaFromData_obj (kvs : List (String × JVal)) (dkvs : List (String × JVal))
    (hbd : bundleData (.obj kvs) = .obj dkvs) :
    metaFromData (.obj kvs) =
      .obj [("responseId", pyGetD dkvs "responseId"),
        ("submissionId", pyGetD dkvs "submissionId"),
        ("respondentId", pyGetD dkvs "respondentId"),
        ("formId", pyGetD dkvs "formId"),
        ("formName", pyGetD dkvs "formName"),
        ("createdAt", pyGetD dkvs "createdAt")] := by
  unfold metaFromData
  rw [hbd]

theorem bundleFieldsVal_obj (kvs : List (String × JVal)) (dkvs : List (String × JVal))
    (hbd : bundleData (.obj kvs) = .obj dkvs) :
    bundleFieldsVal (.obj kvs) =
      (if truthy (pyGetD dkvs "fields") = true then pyGetD dkvs "fields" else JVal.arr []) := by
  unfold bundleFieldsVal
  rw [hbd]

theorem build_answers_eval (kvs : List (String × JVal)) (dkvs : List (String × JVal))
    (hbd : bundleData (.obj kvs) = .obj dkvs) :
    build_answers (.obj kvs) =
      Bind.bind (pyIterElems (if truthy (pyGetD dkvs "fields") = true
          then pyGetD dkvs "fields" else JVal.arr []))
        (fun fs => addFields fs (dictSet [] (.str "_meta") (metaFromData (.obj kvs)))) := by
  have hdata_if : (if truthy (pyGetD kvs "data") = true then pyGetD kvs "data" else JVal.obj [])
      = JVal.obj dkvs := hbd
  rw [metaFromData_obj kvs dkvs hbd]
  simp only [build_answers, pyGet, ebind_ok]
  rw [hdata_if]
  simp only [pyGet, ebind_ok]

theorem build_answers_spec (raw : JVal) (h : wfBundle raw = true) :
    ∃ a, build_answers raw = .ok a ∧
      (noMetaKey raw = true → dictGet a (.str "_meta") = some (metaFromData raw)) := by
  cases raw with
  | obj kvs =>
    have h2 : ((match bundleData (.obj kvs) with | JVal.obj _ => true | _ => false)
        && (match bundleFieldsVal (.obj kvs) with
            | JVal.arr fs => fs.all wfField
            | _ => false)) = true := h
    rw [Bool.and_eq_true] at h2
    obtain ⟨hd, hf⟩ := h2
    cases hbd : bundleData (.obj kvs) with
    | obj dkvs =>
      cases hF : bundleFieldsVal (.obj kvs) with
      | arr fsl =>
        have hfall : fsl.all wfField = true := by
          rw [hF] at hf
          exact hf
        have hFif : (if truthy (pyGetD dkvs "fields") = true
            then pyGetD dkvs "fields" else JVal.arr []) = JVal.arr fsl :=
          (bundleFieldsVal_obj kvs dkvs hbd).symm.trans hF
        obtain ⟨a, ha⟩ := addFields_ok fsl
          (dictSet [] (.str "_meta") (metaFromData (.obj kvs))) hfall
        refine ⟨a, ?_, ?_⟩
        · rw [build_answers_eval kvs dkvs hbd, hFif]
          exact ha
        · intro hnm
          have hnm2 : (match bundleFieldsVal (.obj kvs) with
              | JVal.arr fs => fs.all fieldKeyNotMeta
              | _ => true) = true := hnm
          rw [hF] at hnm2
          have hkall : fsl.all fieldKeyNotMeta = true := hnm2
          rw [addFields_meta fsl _ a hfall hkall ha]
          rw [show dictSet [] (JVal.str "_meta") (metaFromData (.obj kvs))
              = [(JVal.str "_meta", metaFromData (.obj kvs))] from rfl]
          rw [dictGet_cons, if_pos (by decide)]
      | null =>
        rw [hF] at hf
        exact absurd hf (by simp)
      | bool b =>
        rw [hF] at hf
        exact absurd hf (by simp)
      | num n =>
        rw [hF] at hf
        exact absurd hf (by simp)
      | str s =>
        rw [hF] at hf
        exact absurd hf (by simp)
      | obj okvs =>
        rw [hF] at hf
        exact absurd hf (by simp)
    | null =>
      rw [hbd] at hd
      exact absurd hd (by simp)
    | bool b =>
      rw [hbd] at hd
      exact absurd hd (by simp)
    | num n =>
      rw [hbd] at hd
      exact absurd hd (by simp)
    | str s =>
      rw [hbd] at hd
      exact absurd hd (by simp)
    | arr xs =>
      rw [hbd] at hd
      exact absurd hd (by simp)
  | null =>
    rw [show wfBundle JVal.null = false from rfl] at h
    exact absurd h (by simp)
  | bool b =>
    rw [show wfBundle (JVal.bool b) = false from rfl] at h
    exact absurd h (by simp)
  | num n =>
    rw [show wfBundle (JVal.num n) = false from rfl] at h
    exact absurd h (by simp)
  | str s =>
    rw [show wfBundle (JVal.str s) = false from rfl] at h
    exact absurd h (by simp)
  | arr xs =>
    rw [show wfBundle (JVal.arr xs) = false from rfl] at h
    exact absurd h (by simp)

theorem normalize_endpoint_ok (raw : JVal) (h : wfBundle raw = true) :
    ∃ out, normalize_endpoint raw = .ok out := by
  obtain ⟨a, ha, _⟩ := build_answers_spec raw h
  refine ⟨JVal.obj [("canonical", .obj (drop_empty (build_canonical a))),
    ("meta", (dictGet a (.str "_meta")).getD (.obj []))], ?_⟩
  simp only [normalize_endpoint]
  rw [ha, ebind_ok]

theorem normalize_endpoint_spec (raw : JVal) (h : wfBundle raw = true)
    (hnm : noMetaKey raw = true) :
    ∃ a, build_answers raw = .ok a ∧
      normalize_endpoint raw = .ok (.obj [("canonical", .obj (drop_empty (build_canonical a))),
        ("meta", metaFromData raw)]) := by
  obtain ⟨a, ha, hm⟩ := build_answers_spec raw h
  refine ⟨a, ha, ?_⟩
  simp only [normalize_endpoint]
  rw [ha, ebind_ok, hm hnm]
  rfl

theorem as_int_empty (v : JVal) (h : is_empty v = true) : as_int v = none := by
  unfold as_int
  rw [if_pos (by simp [h])]

theorem as_int_not_empty (v : JVal) (h : is_empty v = false) :
    as_int v = parsePyFloatTrunc (commaToDot (pyStr v)) := by
  unfold as_int
  rw [if_neg (by simp [h])]

/-! Claim theorems. -/

/-- C1 counterexample: a payload whose raw value is an object, with a
truthy non-dict data member, makes the pipeline raise AttributeError
instead of degrading to nulls. -/
theorem C1_cx_data_string_raises :
    normalize_endpoint (.obj [("data", JVal.str "hello")]) = .error "AttributeError" := rfl

/-- C1 (amended): for every payload object whose data member, when truthy,
is a dict, whose effective fields value is a list of fields that are dicts
with hashable keys and traversable options, the full pipeline terminates
without an error; moreover a key missing from the answer map yields null,
a failed numeric parse yields null, and an absent data member is treated
as an empty container (empty field list and all-null metadata). -/
theorem C1_pipeline_safety :
    (∀ raw, wfBundle raw = true → ∃ out, normalize_endpoint raw = .ok out)
    ∧ (∀ answers k, dictGet answers (.str k) = none → get_value answers k = .null)
    ∧ (∀ v, parsePyFloatTrunc (commaToDot (pyStr v)) = none → as_int v = none)
    ∧ (∀ kvs, pyGetD kvs "data" = .null →
        build_answers (.obj kvs) = .ok [((.str "_meta"),
          .obj [("responseId", .null), ("submissionId", .null), ("respondentId", .null),
                ("formId", .null), ("formName", .null), ("createdAt", .null)])]) := by
  refine ⟨normalize_endpoint_ok, ?_, ?_, ?_⟩
  · intro answers k h
    unfold get_value
    rw [h]
  · intro v h
    by_cases he : is_empty v = true
    · exact as_int_empty v he
    · rw [as_int_not_empty v (by simpa using he)]
      exact h
  · intro kvs h
    have hbd : bundleData (.obj kvs) = .obj [] := by
      show (if truthy (pyGetD kvs "data") = true then pyGetD kvs "data" else JVal.obj [])
        = JVal.obj []
      rw [h, if_neg (by decide)]
    rw [build_answers_eval kvs [] hbd, metaFromData_obj kvs [] hbd]
    rfl

/-- C1 witness: the pipeline succeeds on the example bundle, a missing key
reads as null, a non-numeric string coerces to null, and a missing data
member produces the all-null metadata answer map. -/
theorem C1_pipeline_safety_witness :
    (∃ out, normalize_endpoint exBundle = .ok out)
    ∧ get_value [] "question_V0PDxl" = .null
    ∧ as_int (.str "abc") = none
    ∧ build_answers (.obj []) = .ok [((.str "_meta"),
        .obj [("responseId", .null), ("submissionId", .null), ("respondentId", .null),
              ("formId", .null), ("formName", .null), ("createdAt", .null)])] :=
  ⟨C1_pipeline_safety.1 exBundle (by decide),
   C1_pipeline_safety.2.1 [] "question_V0PDxl" rfl,
   C1_pipeline_safety.2.2.1 (.str "abc") rfl,
   C1_pipeline_safety.2.2.2 [] rfl⟩

/-- C3 counterexample: a bundle carrying responseId at its top level but
not inside data yields an all-null metadata entry, not the top-level
value. -/
theorem C3_cx_top_level_ignored :
    build_answers metaCxBundle = .ok [((.str "_meta"),
      .obj [("responseId", .null), ("submissionId", .null), ("respondentId", .null),
            ("formId", .null), ("formName", .null), ("createdAt", .null)])]
    ∧ (JVal.null = JVal.str "r1" → False) :=
  ⟨rfl, fun h => JVal.noConfusion h⟩

/-- C3 (amended): for every well-formed bundle none of whose fields is
keyed _meta, the answer map contains the reserved _meta entry holding the
six metadata fields read from the bundle data object (null when missing),
and the response meta field equals that metadata object. -/
theorem C3_meta_entry (raw : JVal) (h : wfBundle raw = true) (hnm : noMetaKey raw = true) :
    ∃ a, build_answers raw = .ok a
      ∧ dictGet a (.str "_meta") = some (metaFromData raw)
      ∧ normalize_endpoint raw = .ok (.obj [("canonical", .obj (drop_empty (build_canonical a))),
          ("meta", metaFromData raw)]) := by
  obtain ⟨a, ha, hm⟩ := build_answers_spec raw h
  refine ⟨a, ha, hm hnm, ?_⟩
  simp only [normalize_endpoint]
  rw [ha, ebind_ok, hm hnm]
  rfl

/-- C3 witness: the example bundle produces the metadata object read from
its data object, with all six fields null there. -/
theorem C3_meta_entry_witness :
    ∃ a, build_answers exBundle = .ok a
      ∧ dictGet a (.str "_meta") = some (metaFromData exBundle)
      ∧ normalize_endpoint exBundle = .ok (.obj [("canonical",
          .obj (drop_empty (build_canonical a))), ("meta", metaFromData exBundle)]) :=
  C3_meta_entry exBundle (by decide) (by decide)

/-- C4: phone normalization maps the three specification examples as
stated, maps every empty input to null, and in general rewrites a cleaned
string that starts with a single zero and carries exactly 10 digits to +33
plus the digits without the leading zero, passing every other cleaned
value through unchanged. -/
theorem C4_phone_examples_and_rule :
    norm_phone (.str "0612345678") = some "+33612345678"
    ∧ norm_phone (.str "0033612345678") = some "+33612345678"
    ∧ norm_phone (.str "+33612345678") = some "+33612345678"
    ∧ (∀ v, is_empty v = true → norm_phone v = none)
    ∧ (∀ v, is_empty v = false →
        (startsSingleZero (phoneCleaned v) = true →
          ((phoneCleaned v).filter isDigitChar).length = 10 →
          norm_phone v = some ⟨'+' :: '3' :: '3' ::
            ((phoneCleaned v).filter isDigitChar).drop 1⟩)
        ∧ (¬(startsSingleZero (phoneCleaned v) = true
              ∧ ((phoneCleaned v).filter isDigitChar).length = 10) →
          norm_phone v = some ⟨phoneCleaned v⟩)) := by
  refine ⟨rfl, rfl, rfl, norm_phone_empty, ?_⟩
  intro v hv
  constructor
  · intro h1 h2
    have hh : headIsZero (phoneCleaned v) = true := by
      rw [← startsSingleZero_eq_headIsZero (phoneCleaned v) (starts00_phoneCleaned v)]
      exact h1
    rw [norm_phone_not_empty v hv, if_pos (by simp [hh, h2])]
  · intro hn
    rw [norm_phone_not_empty v hv, if_neg ?hcond]
    case hcond =>
      intro hc
      apply hn
      rw [Bool.and_eq_true] at hc
      constructor
      · rw [startsSingleZero_eq_headIsZero (phoneCleaned v) (starts00_phoneCleaned v)]
        exact hc.1
      · simpa using hc.2

/-- C4 witness: the rule applied at concrete inputs, the empty case at
null and the national-number case at the example number. -/
theorem C4_phone_examples_and_rule_witness :
    norm_phone JVal.null = none
    ∧ norm_phone (.str "06 12 34 56 78") = some ⟨'+' :: '3' :: '3' ::
        ((phoneCleaned (.str "06 12 34 56 78")).filter isDigitChar).drop 1⟩ :=
  ⟨C4_phone_examples_and_rule.2.2.2.1 JVal.null rfl,
   (C4_phone_examples_and_rule.2.2.2.2 (.str "06 12 34 56 78") (by decide)).1
     (by decide) (by decide)⟩

/-- C5 counterexample: the input 1+2 is returned as 1+2, keeping a plus
sign at the second position, so the cleaning does not strip non-leading
plus signs. -/
theorem C5_cx_inner_plus_kept :
    norm_phone (.str "1+2") = some "1+2" ∧ "1+2".data = ['1', '+', '2'] := ⟨rfl, rfl⟩

/-- C5 (amended): for every non-empty input, the string returned by phone
normalization contains only digits and plus signs; plus signs are kept
wherever they occur, not only at the first position. -/
theorem C5_phone_output_chars (v : JVal) (r : String) (_hne : is_empty v = false)
    (h : norm_phone v = some r) : ∀ c ∈ r.data, isPhoneChar c = true :=
  norm_phone_chars v r h

/-- C5 witness: the characters of a concrete normalization result are all
digits or plus signs. -/
theorem C5_phone_output_chars_witness : isPhoneChar '+' = true :=
  C5_phone_output_chars (.str "0612345678") "+33612345678" (by decide) (by decide)
    '+' (by decide)

/-- C10 counterexample: the non-empty input abc normalizes to the empty
string, and renormalizing that result gives null rather than the same
value, so phone normalization is not idempotent on all of its outputs. -/
theorem C10_cx_phone_empty_result :
    norm_phone (.str "abc") = some "" ∧ norm_phone (.str "") ≠ some "" := by
  refine ⟨rfl, ?_⟩
  intro h
  exact Option.noConfusion h

/-- C10 (amended): email normalization is idempotent on its outputs, and
phone normalization is idempotent on every output other than the empty
string (which the emptiness classifier sends back to null). -/
theorem C10_idempotence :
    (∀ v r, norm_email v = some r → norm_email (.str r) = some r)
    ∧ (∀ v r, norm_phone v = some r → r ≠ "" → norm_phone (.str r) = some r) :=
  ⟨norm_email_idem, norm_phone_idem⟩

/-- C10 witness: both normalizers fix their outputs on the specification
examples. -/
theorem C10_idempotence_witness :
    norm_email (.str "foo@bar.com") = some "foo@bar.com"
    ∧ norm_phone (.str "+33612345678") = some "+33612345678" :=
  ⟨C10_idempotence.1 (.str " Foo@Bar.com ") "foo@bar.com" (by decide),
   C10_idempotence.2 (.str "0612345678") "+33612345678" (by decide) (by decide)⟩

/-- C6: for every multiple-choice field whose declared options carry
string display texts, a null raw value decodes to null, a list of ids maps
each id to the matching option text with fallback to the raw id, a string
id gets the same single-value resolution, and every field of another type
passes its value through unchanged. -/
theorem C6_decode_multiple_choice (kvs : List (String × JVal))
    (hwf : wfChoiceOptions (.obj kvs) = true) :
    (pyGetD kvs "type" = .str "MULTIPLE_CHOICE" →
      (pyGetD kvs "value" = .null → decode_field_value (.obj kvs) = .ok .null)
      ∧ (∀ oids, pyGetD kvs "value" = .arr oids →
          decode_field_value (.obj kvs) =
            .ok (.arr (oids.map (resolveChoiceSpec (optsList (.obj kvs))))))
      ∧ (∀ sv, pyGetD kvs "value" = .str sv →
          decode_field_value (.obj kvs) =
            .ok (resolveChoiceSpec (optsList (.obj kvs)) (.str sv))))
    ∧ (pyEq (pyGetD kvs "type") (.str "MULTIPLE_CHOICE") = false →
        decode_field_value (.obj kvs) = .ok (pyGetD kvs "value")) := by
  constructor
  · intro htype
    have htype2 : pyEq (pyGetD kvs "type") (.str "MULTIPLE_CHOICE") = true := by
      rw [htype, show pyEq (JVal.str "MULTIPLE_CHOICE") (.str "MULTIPLE_CHOICE")
        = ("MULTIPLE_CHOICE" == "MULTIPLE_CHOICE") from rfl]
      simp
    refine ⟨fun hv => decode_mc_null kvs htype2 hv, ?_, ?_⟩
    · intro oids hv
      exact decode_mc_arr kvs oids _ htype2 hv (decodeChoiceList_spec kvs oids hwf)
    · intro sv hv
      obtain ⟨t, h1, h2⟩ := option_id_to_text_spec kvs (.str sv) hwf
      rw [decode_mc_str kvs sv t htype2 hv h1, h2]
  · exact decode_not_mc kvs

/-- C6 witness: the specification example field with raw value a decodes
through the resolution function, whose value there is the text Yes. -/
theorem C6_decode_multiple_choice_witness :
    decode_field_value (.obj mcFieldKvs) =
      .ok (resolveChoiceSpec (optsList (.obj mcFieldKvs)) (.str "a"))
    ∧ resolveChoiceSpec (optsList (.obj mcFieldKvs)) (.str "a") = .str "Yes" :=
  ⟨((C6_decode_multiple_choice mcFieldKvs (by decide)).1 rfl).2.2 "a" rfl, rfl⟩

/-- C7: is_empty holds exactly for null, for strings whose stripped
lowercased form is one of the seven sentinels, and for zero-length lists
and dicts; in particular the number 0, the boolean false and the string 0
are not empty. -/
theorem C7_is_empty_characterization :
    (∀ v, is_empty v = true ↔
      (v = JVal.null
        ∨ (∃ s, v = JVal.str s ∧ pyLower (pyStrip s) ∈
            (["", " ", "null", "none", "n/a", "na", "undefined"] : List String))
        ∨ (∃ xs, v = JVal.arr xs ∧ xs.length = 0)
        ∨ (∃ kvs, v = JVal.obj kvs ∧ kvs.length = 0)))
    ∧ is_empty (.num 0) = false
    ∧ is_empty (.bool false) = false
    ∧ is_empty (.str "0") = false := by
  refine ⟨?_, rfl, rfl, by decide⟩
  intro v
  cases v with
  | null => simp [is_empty]
  | bool b => simp [is_empty]
  | num n => simp [is_empty]
  | str s =>
    constructor
    · intro h
      exact Or.inr (Or.inl ⟨s, rfl, List.elem_iff.mp h⟩)
    · intro h
      rcases h with h | h | h | h
      · exact absurd h (by simp)
      · obtain ⟨s2, heq, hmem⟩ := h
        injection heq with h2
        subst h2
        exact List.elem_iff.mpr hmem
      · obtain ⟨xs, heq, _⟩ := h
        exact absurd heq (by simp)
      · obtain ⟨kvs, heq, _⟩ := h
        exact absurd heq (by simp)
  | arr xs =>
    cases xs with
    | nil => simp [is_empty]
    | cons x xs2 => simp [is_empty]
  | obj kvs =>
    cases kvs with
    | nil => simp [is_empty]
    | cons kv kvs2 => simp [is_empty]

/-- C7 witness: the characterization applied at null. -/
theorem C7_is_empty_characterization_witness : is_empty JVal.null = true :=
  (C7_is_empty_characterization.1 JVal.null).mpr (Or.inl rfl)

set_option maxRecDepth 8000 in
/-- C8 counterexample: the coercion does not truncate the exact decimal
value of the string. The literal 0.99999999999999999 (mantissa digits
99999999999999999, seventeen of them fractional) truncates to 0 as a
decimal number, but the code rounds it to the binary64 value 1.0 first
and returns 1; the literal 1e400 denotes the decimal number 10 ^ 400, but
the code overflows to infinity and returns null. -/
theorem C8_cx_binary_float_rounding :
    as_int (.str "0.99999999999999999") = some 1
    ∧ truncDecimalSpec false 99999999999999999 17 0 = 0
    ∧ as_int (.str "1e400") = none
    ∧ truncDecimalSpec false 1 0 400 = ((10 ^ 400 : Nat) : Int) :=
  ⟨rfl, rfl, rfl, rfl⟩

set_option maxRecDepth 8000 in
/-- C8 (amended): integer coercion sends every empty input to null;
otherwise it stringifies the value, replaces commas with dots, converts
through the Python float type (the decimal literal is correctly rounded
to an IEEE-754 binary64 value) and truncates toward zero, so 1234,5
yields 1234 but 0.99999999999999999 rounds to 1.0 and yields 1; a
magnitude overflowing to infinity yields null (int raises on infinity
and the error is caught), so 1e400 yields null; and every parse failure
yields null (abc and the empty string), never an error. -/
theorem C8_as_int_examples_and_rule :
    (∀ v, is_empty v = true → as_int v = none)
    ∧ as_int (.str "1234,5") = some 1234
    ∧ as_int (.str "abc") = none
    ∧ as_int (.str "") = none
    ∧ as_int (.str "0.99999999999999999") = some 1
    ∧ as_int (.str "1e400") = none
    ∧ (∀ v, is_empty v = false → as_int v = parsePyFloatTrunc (commaToDot (pyStr v)))
    ∧ (∀ v, parsePyFloatTrunc (commaToDot (pyStr v)) = none → as_int v = none) := by
  refine ⟨as_int_empty, rfl, rfl, rfl, rfl, rfl, as_int_not_empty, ?_⟩
  intro v h
  by_cases he : is_empty v = true
  · exact as_int_empty v he
  · rw [as_int_not_empty v (by simpa using he)]
    exact h

/-- C8 witness: the empty rule at null and the parse-failure rule at the
boolean true, whose stringified form does not parse. -/
theorem C8_as_int_examples_and_rule_witness :
    as_int JVal.null = none ∧ as_int (.bool true) = none :=
  ⟨C8_as_int_examples_and_rule.1 JVal.null rfl,
   C8_as_int_examples_and_rule.2.2.2.2.2.2.2 (.bool true) rfl⟩

/-- C9: drop_empty keeps exactly the canonical entries whose value is not
classified empty, and the surviving entries form a sublist of the mapper
output, hence appear in construction order. -/
theorem C9_drop_empty_exact : ∀ answers : List (JVal × JVal),
    (∀ kv, kv ∈ drop_empty (build_canonical answers) ↔
      (kv ∈ build_canonical answers ∧ is_empty kv.2 = false))
    ∧ List.Sublist (drop_empty (build_canonical answers)) (build_canonical answers) := by
  intro answers
  constructor
  · intro kv
    unfold drop_empty
    rw [List.mem_filter]
    simp
  · exact List.filter_sublist _

/-- C9 witness: the surviving property_type entry of a concrete canonical
object is in the mapper output and non-empty. -/
theorem C9_drop_empty_exact_witness :
    ("property_type", JVal.str "  Maison  ") ∈ build_canonical ptAnswers
    ∧ is_empty (JVal.str "  Maison  ") = false :=
  ((C9_drop_empty_exact ptAnswers).1 ("property_type", JVal.str "  Maison  ")).mp
    (List.mem_singleton.mpr rfl)

/-- C2 counterexample: an untrimmed property_type field value appears in
the canonical object exactly as stored, the raw field value, not its
trimmed form. -/
theorem C2_cx_property_type_raw :
    pyGetD (build_canonical ptAnswers) "property_type" = .str "  Maison  "
    ∧ get_value ptAnswers "question_WNEKXe" = .str "  Maison  "
    ∧ pyStrip "  Maison  " ≠ "  Maison  " :=
  ⟨rfl, rfl, by decide⟩

/-- C2 (amended): every canonical attribute except property_type carries
its designated normalizer applied to the looked-up field value (trim for
the free-text attributes, phone and email formatting, integer coercion for
the numeric attributes), while property_type carries the raw field value;
consequently a present role value is trim-fixed and a present email value
contains an @ character. -/
theorem C2_canonical_normalizers : ∀ answers : List (JVal × JVal),
    pyGetD (build_canonical answers) "role" =
      textNorm (get_value answers "question_OzXkVA_7be398b7-7e42-4736-b35e-b9a78d556f22")
    ∧ pyGetD (build_canonical answers) "city_project" =
      textNorm (get_value answers "question_V0PDxl")
    ∧ pyGetD (build_canonical answers) "first_name" =
      textNorm (get_value answers "question_EXlMAL")
    ∧ pyGetD (build_canonical answers) "last_name" =
      textNorm (get_value answers "question_r6OvgL")
    ∧ pyGetD (build_canonical answers) "phone" =
      jstr (norm_phone (get_value answers "question_487zEo"))
    ∧ pyGetD (build_canonical answers) "email" =
      jstr (norm_email (get_value answers "question_jyovg9"))
    ∧ pyGetD (build_canonical answers) "price_net_seller" =
      jint (as_int (get_value answers "question_EXlMaL"))
    ∧ pyGetD (build_canonical answers) "budget_max" =
      jint (as_int (get_value answers "question_P69kP0"))
    ∧ pyGetD (build_canonical answers) "surface_m2" =
      jint (as_int (get_value answers "question_9WZMr4"))
    ∧ pyGetD (build_canonical answers) "land_surface_m2" =
      jint (as_int (get_value answers "question_e6rvoo"))
    ∧ pyGetD (build_canonical answers) "bedrooms" =
      jint (as_int (get_value answers "question_WNR1ZQ"))
    ∧ pyGetD (build_canonical answers) "property_type" =
      get_value answers "question_WNEKXe"
    ∧ (∀ s, pyGetD (build_canonical answers) "role" = .str s → pyStrip s = s)
    ∧ (∀ s, pyGetD (build_canonical answers) "email" = .str s → '@' ∈ s.data) := by
  intro answers
  refine ⟨rfl, rfl, rfl, rfl, rfl, rfl, rfl, rfl, rfl, rfl, rfl, rfl, ?_, ?_⟩
  · intro s h
    have h2 : (if is_empty (get_value answers
        "question_OzXkVA_7be398b7-7e42-4736-b35e-b9a78d556f22") = true then JVal.null
      else .str (pyStrip (pyStr (get_value answers
        "question_OzXkVA_7be398b7-7e42-4736-b35e-b9a78d556f22")))) = .str s := h
    by_cases he : is_empty (get_value answers
        "question_OzXkVA_7be398b7-7e42-4736-b35e-b9a78d556f22") = true
    · rw [if_pos he] at h2
      exact absurd h2 (by simp)
    · rw [if_neg he] at h2
      injection h2 with h3
      rw [← h3, pyStrip_idem]
  · intro s h
    have h2 : jstr (norm_email (get_value answers "question_jyovg9")) = .str s := h
    cases hne : norm_email (get_value answers "question_jyovg9") with
    | none =>
      rw [hne] at h2
      exact absurd h2 (by simp [jstr])
    | some r =>
      rw [hne] at h2
      have h4 : JVal.str r = .str s := h2
      injection h4 with h3
      obtain ⟨_, hat⟩ := norm_email_some _ r hne
      rw [← h3]
      exact List.elem_iff.mp hat

/-- C2 witness: a role value survives as its trimmed form, which the trim
operation fixes. -/
theorem C2_canonical_normalizers_witness : pyStrip "Agent" = "Agent" :=
  (C2_canonical_normalizers roleAnswers).2.2.2.2.2.2.2.2.2.2.2.2.1 "Agent" rfl
